import Mathlib

/-!
Verification of the stratified train/valid/test splitting core of the tte-als
repository (`src/utility/survival.py`), shallowly embedded in Lean 4.

Numeric table entries and fractions are modelled by exact rationals (`ℚ`).
The two external library primitives used by `multilabel_train_test_split`
(`sklearn.utils.shuffle` and skmultilearn's `iterative_train_test_split`) are
not part of this repository's sources; they are modelled from the spec's
description of their observable contract (deterministic seeded permutation of
the paired rows, followed by a deterministic assignment of every row to exactly
one of the two partitions, approximately proportional per label value).
Everything else is translated directly from `survival.py`.
-/

/-- A pandas `DataFrame`: an ordered column schema plus an ordered list of
rows, each row being the list of its cell values. -/
structure DataFrame where
  columns : List String
  values : List (List ℚ)
deriving DecidableEq

/-- The error outcomes of `make_stratified_split`: the `assert` on the
fractions (line 35), Python's `ZeroDivisionError` from renormalizing by a zero
sum (lines 36-39), the `ValueError("unrecognized stratify policy")` (line 56),
and the final `assert` on the row counts (line 69). -/
inductive SplitError
  | invalidFractions
  | divisionByZero
  | invalidPolicy
  | internalConsistencyFault
deriving DecidableEq

/-- `df[name]`: the column of `df` named `name`, read off each row at the
position of `name` in the schema. -/
def colValues (df : DataFrame) (name : String) : List ℚ :=
  df.values.map (fun row => row.getD (df.columns.indexOf name) 0)

/-- `Series.min()` of a nonempty column. -/
def listMin : List ℚ → ℚ
  | [] => 0
  | x :: xs => xs.foldl min x

/-- `Series.max()` of a nonempty column. -/
def listMax : List ℚ → ℚ
  | [] => 0
  | x :: xs => xs.foldl max x

/-- `np.linspace(start, stop, num)`: `num` evenly spaced points from `start`
to `stop` inclusive. -/
def linspace (start stop : ℚ) (num : ℕ) : List ℚ :=
  (List.range num).map (fun k : ℕ => start + (stop - start) * (k : ℚ) / ((num : ℚ) - 1))

/-- `np.digitize(x, bins, right=True)` for monotonically increasing `bins`:
the index `i` with `bins[i-1] < x <= bins[i]`, i.e. the number of bin edges
strictly below `x`. -/
def digitizeRight (x : ℚ) (bins : List ℚ) : ℕ :=
  bins.countP (fun b => decide (b < x))

/-- Lines 47-48 of `survival.py`: bin a time column into ordinal labels using
20 evenly spaced edges from its minimum to its maximum, right-inclusive. -/
def timeBinLabels (t : List ℚ) : List ℕ :=
  let bins := linspace (listMin t) (listMax t) 20
  t.map (fun v => digitizeRight v bins)

/-- Lines 43-56 of `survival.py`: the per-row stratification label matrix
`stra_lab` (each row's label as a list of rationals), or the
unrecognized-policy error. -/
def buildStratifyLabels (df : DataFrame) (stratify_colname : String) :
    Except SplitError (List (List ℚ)) :=
  if stratify_colname = "event" then
    .ok ((colValues df stratify_colname).map (fun e => [e]))
  else if stratify_colname = "time" then
    .ok ((timeBinLabels (colValues df stratify_colname)).map (fun b : ℕ => [(b : ℚ)]))
  else if stratify_colname = "both" then
    let t := timeBinLabels (colValues df "time")
    let e := colValues df "event"
    .ok ((t.zip e).map (fun p => [(p.1 : ℚ), p.2]))
  else
    .error .invalidPolicy

/-- Modelled from the spec: the pseudo-random stream behind
`sklearn.utils.shuffle`.  The spec only requires a deterministic function of
the seed; we use one step of a linear congruential generator. -/
def lcg (s : ℕ) : ℕ :=
  (1103515245 * s + 12345) % 2147483648

/-- Modelled from the spec: `sklearn.utils.shuffle(X, y, random_state)`
applied to the rows paired with their labels.  The spec requires a seeded
pseudo-random permutation applied to (features, labels) as a pair, the same
seed giving the same permutation; we realize it as a seed-dependent rotation
of the paired list. -/
def shuffleList {α : Type} (l : List α) (seed : ℕ) : List α :=
  l.rotate (lcg seed % l.length)

/-- Modelled from the spec: the assignment loop of skmultilearn's
`iterative_train_test_split` (the external iterative-stratification primitive,
not part of this repository's sources).  Per the spec its observable contract
is: deterministic; the two returned partitions are disjoint and their union
recovers every input row exactly once with row/label correspondence preserved;
each label value's examples are distributed between the partitions
approximately in ratio `(1 - test_size) : test_size`.  We realize it as a
deterministic greedy pass: each (row, label) pair goes to the test partition
exactly when that would not push the test partition's share of its label value
above the requested test fraction, otherwise to the train partition. -/
def greedySplit (test_size : ℚ) :
    List (List ℚ × List ℚ) → List (List ℚ × List ℚ) → List (List ℚ × List ℚ) →
    List (List ℚ × List ℚ) × List (List ℚ × List ℚ)
  | [], tr, te => (tr.reverse, te.reverse)
  | p :: rest, tr, te =>
    let nTe := (te.filter (fun q => q.2 = p.2)).length
    let nTr := (tr.filter (fun q => q.2 = p.2)).length
    if ((nTe : ℚ) + 1) ≤ test_size * ((nTr : ℚ) + (nTe : ℚ) + 1) then
      greedySplit test_size rest tr (p :: te)
    else
      greedySplit test_size rest (p :: tr) te

/-- `multilabel_train_test_split` (lines 17-24 of `survival.py`): shuffle
(features, labels) as a pair with the seeded shuffle, then run the iterative
stratified splitter, returning `(X_train, y_train, X_test, y_test)`. -/
def multilabel_train_test_split (X y : List (List ℚ)) (test_size : ℚ)
    (random_state : ℕ) :
    List (List ℚ) × List (List ℚ) × List (List ℚ) × List (List ℚ) :=
  let p := shuffleList (X.zip y) random_state
  let s := greedySplit test_size p [] []
  (s.1.map Prod.fst, s.1.map Prod.snd, s.2.map Prod.fst, s.2.map Prod.snd)

/-- `make_stratified_split` (lines 26-70 of `survival.py`): check the
fractions are non-negative, renormalize them by their sum, build the
stratification labels, split train vs rest, split rest into valid vs test
unless the renormalized valid fraction is zero, rebuild the three tables and
check the row counts add up. -/
def make_stratified_split (df : DataFrame) (stratify_colname : String)
    (frac_train frac_valid frac_test : ℚ) (random_state : ℕ) :
    Except SplitError (DataFrame × DataFrame × DataFrame) :=
  if 0 ≤ frac_train ∧ 0 ≤ frac_valid ∧ 0 ≤ frac_test then
    if frac_train + frac_valid + frac_test = 0 then .error .divisionByZero
    else
      let frac_sum := frac_train + frac_valid + frac_test
      let ft := frac_train / frac_sum
      let fv := frac_valid / frac_sum
      let fte := frac_test / frac_sum
      match buildStratifyLabels df stratify_colname with
      | .error e => .error e
      | .ok stra_lab =>
        let first := multilabel_train_test_split df.values stra_lab (1 - ft) random_state
        let x_train := first.1
        let x_temp := first.2.2.1
        let y_temp := first.2.2.2
        let vt : List (List ℚ) × List (List ℚ) :=
          if fv = 0 then ([], x_temp)
          else
            let second := multilabel_train_test_split x_temp y_temp
              (fte / (fv + fte)) random_state
            (second.1, second.2.2.1)
        if df.values.length = x_train.length + vt.1.length + vt.2.length then
          .ok (⟨df.columns, x_train⟩, ⟨df.columns, vt.1⟩, ⟨df.columns, vt.2⟩)
        else .error .internalConsistencyFault
  else .error .invalidFractions

/-- The binning procedure exactly as claim C2 words it: partition
`[lo, hi]` into 20 equal-width bins and send `v` to the bin whose right edge
(`lo + (i+1) * (hi-lo)/20` for bin `i`) is the smallest edge `≥ v`. -/
def claimedBinIndex20 (lo hi v : ℚ) : ℕ :=
  (List.range 20).findIdx (fun i => decide (v ≤ lo + (hi - lo) * ((i : ℚ) + 1) / 20))

/-- The amended binning description: 20 evenly spaced edges from `lo` to `hi`
(19 equal-width intervals); `v` goes to the index of the smallest edge
`≥ v`. -/
def amendedBinIndex (lo hi v : ℚ) : ℕ :=
  (linspace lo hi 20).findIdx (fun b => decide (v ≤ b))

/-! ### Helper lemmas about the splitter -/

lemma zip_map_fst_snd {α β : Type} (l : List (α × β)) :
    (l.map Prod.fst).zip (l.map Prod.snd) = l := by
  induction l with
  | nil => rfl
  | cons p rest ih => simp [ih]

lemma shuffleList_perm {α : Type} (l : List α) (s : ℕ) :
    (shuffleList l s).Perm l :=
  List.rotate_perm l _

lemma greedySplit_multiset (ts : ℚ) (l tr te : List (List ℚ × List ℚ)) :
    ((greedySplit ts l tr te).1 : Multiset (List ℚ × List ℚ)) +
      ((greedySplit ts l tr te).2 : Multiset (List ℚ × List ℚ)) =
      (l : Multiset (List ℚ × List ℚ)) + (tr : Multiset (List ℚ × List ℚ)) +
        (te : Multiset (List ℚ × List ℚ)) := by
  induction l generalizing tr te with
  | nil =>
    simp [greedySplit, Multiset.coe_reverse, add_comm]
  | cons p rest ih =>
    simp only [greedySplit]
    split
    · rw [ih]
      simp [← Multiset.cons_coe, Multiset.cons_add, Multiset.add_cons]
    · rw [ih]
      simp [← Multiset.cons_coe, Multiset.cons_add, Multiset.add_cons]

lemma greedySplit_append_perm (ts : ℚ) (l : List (List ℚ × List ℚ)) :
    ((greedySplit ts l [] []).1 ++ (greedySplit ts l [] []).2).Perm l := by
  have h := greedySplit_multiset ts l [] []
  rw [← Multiset.coe_eq_coe, ← Multiset.coe_add]
  simpa using h

lemma shuffled_pairs_perm (X y : List (List ℚ)) (ts : ℚ) (s : ℕ) :
    ((greedySplit ts (shuffleList (X.zip y) s) [] []).1 ++
      (greedySplit ts (shuffleList (X.zip y) s) [] []).2).Perm (X.zip y) :=
  (greedySplit_append_perm ts _).trans (shuffleList_perm _ _)

/-- The train and test feature outputs of `multilabel_train_test_split`
together are a permutation of the input rows. -/
lemma multilabel_fst_perm (X y : List (List ℚ)) (ts : ℚ) (s : ℕ)
    (h : X.length = y.length) :
    ((multilabel_train_test_split X y ts s).1 ++
      (multilabel_train_test_split X y ts s).2.2.1).Perm X := by
  have hp := (shuffled_pairs_perm X y ts s).map Prod.fst
  rw [List.map_append] at hp
  simpa [multilabel_train_test_split,
    List.map_fst_zip X y (le_of_eq h)] using hp

lemma multilabel_temp_lengths (X y : List (List ℚ)) (ts : ℚ) (s : ℕ) :
    (multilabel_train_test_split X y ts s).2.2.1.length =
      (multilabel_train_test_split X y ts s).2.2.2.length := by
  simp [multilabel_train_test_split]

/-! ### Helper lemmas about the label builder -/

lemma colValues_length (df : DataFrame) (n : String) :
    (colValues df n).length = df.values.length := by
  simp [colValues]

lemma timeBinLabels_length (t : List ℚ) :
    (timeBinLabels t).length = t.length := by
  simp [timeBinLabels]

lemma buildStratifyLabels_event (df : DataFrame) :
    buildStratifyLabels df "event" =
      .ok ((colValues df "event").map (fun e => [e])) := rfl

lemma buildStratifyLabels_time (df : DataFrame) :
    buildStratifyLabels df "time" =
      .ok ((timeBinLabels (colValues df "time")).map (fun b : ℕ => [(b : ℚ)])) := rfl

lemma buildStratifyLabels_both (df : DataFrame) :
    buildStratifyLabels df "both" =
      .ok (((timeBinLabels (colValues df "time")).zip (colValues df "event")).map
        (fun p => [(p.1 : ℚ), p.2])) := rfl

lemma buildStratifyLabels_length (df : DataFrame) (c : String)
    (labs : List (List ℚ)) (h : buildStratifyLabels df c = .ok labs) :
    labs.length = df.values.length := by
  unfold buildStratifyLabels at h
  split_ifs at h with h1 h2 h3
  · cases h
    rw [List.length_map, colValues_length]
  · cases h
    rw [List.length_map, timeBinLabels_length, colValues_length]
  · cases h
    rw [List.length_map, List.length_zip, timeBinLabels_length,
      colValues_length, colValues_length, min_self]

/-! ### Unfolding `make_stratified_split` on valid arguments -/

/-- On non-negative fractions with nonzero sum and a recognized policy,
`make_stratified_split` succeeds and its output is assembled from the two
splitter calls exactly as in the source. -/
lemma make_stratified_split_eq_ok (df : DataFrame) (c : String)
    (ft fv fte : ℚ) (s : ℕ) (labs : List (List ℚ))
    (h0 : 0 ≤ ft) (h1 : 0 ≤ fv) (h2 : 0 ≤ fte)
    (hsum : ft + fv + fte ≠ 0)
    (hlab : buildStratifyLabels df c = .ok labs) :
    make_stratified_split df c ft fv fte s =
      (let fs := ft + fv + fte
       let first := multilabel_train_test_split df.values labs (1 - ft / fs) s
       let vt : List (List ℚ) × List (List ℚ) :=
         if fv / fs = 0 then ([], first.2.2.1)
         else
           let second := multilabel_train_test_split first.2.2.1 first.2.2.2
             ((fte / fs) / (fv / fs + fte / fs)) s
           (second.1, second.2.2.1)
       Except.ok (⟨df.columns, first.1⟩, ⟨df.columns, vt.1⟩, ⟨df.columns, vt.2⟩)) := by
  have hlen := buildStratifyLabels_length df c labs hlab
  have hperm1 := multilabel_fst_perm df.values labs (1 - ft / (ft + fv + fte)) s hlen.symm
  have hlen1 := hperm1.length_eq
  rw [List.length_append] at hlen1
  simp only [make_stratified_split, hlab]
  rw [if_pos ⟨h0, h1, h2⟩, if_neg hsum]
  by_cases hv : fv / (ft + fv + fte) = 0
  · simp only [if_pos hv]
    rw [if_pos]
    simpa using hlen1.symm
  · simp only [if_neg hv]
    have hperm2 := multilabel_fst_perm
      (multilabel_train_test_split df.values labs (1 - ft / (ft + fv + fte)) s).2.2.1
      (multilabel_train_test_split df.values labs (1 - ft / (ft + fv + fte)) s).2.2.2
      ((fte / (ft + fv + fte)) / (fv / (ft + fv + fte) + fte / (ft + fv + fte))) s
      (multilabel_temp_lengths _ _ _ _)
    have hlen2 := hperm2.length_eq
    rw [List.length_append] at hlen2
    rw [if_pos]
    omega

/-! ### Claim theorems -/

/-- **C1**: for every input table and valid arguments (recognized policy,
non-negative fractions with nonzero sum), `make_stratified_split` succeeds and
the three returned tables are pairwise row-disjoint with their rows together
being exactly the input table's rows — their concatenation is a permutation
of the input's row list, so no row is dropped or duplicated — and the length
identity `len(train) + len(valid) + len(test) = len(input)` holds; the
unconditional post-check on that identity therefore never raises the fatal
`internalConsistencyFault`. -/
theorem C1_split_is_partition (df : DataFrame) (c : String)
    (ft fv fte : ℚ) (s : ℕ)
    (hc : c = "event" ∨ c = "time" ∨ c = "both")
    (h0 : 0 ≤ ft) (h1 : 0 ≤ fv) (h2 : 0 ≤ fte)
    (hsum : ft + fv + fte ≠ 0) :
    ∃ tr va te : DataFrame,
      make_stratified_split df c ft fv fte s = .ok (tr, va, te) ∧
      (tr.values ++ va.values ++ te.values).Perm df.values ∧
      tr.values.length + va.values.length + te.values.length =
        df.values.length := by
  obtain ⟨labs, hlab⟩ : ∃ labs, buildStratifyLabels df c = .ok labs := by
    rcases hc with h | h | h <;> subst h
    · exact ⟨_, buildStratifyLabels_event df⟩
    · exact ⟨_, buildStratifyLabels_time df⟩
    · exact ⟨_, buildStratifyLabels_both df⟩
  have hlen := buildStratifyLabels_length df c labs hlab
  have hshape := make_stratified_split_eq_ok df c ft fv fte s labs h0 h1 h2 hsum hlab
  have hperm1 := multilabel_fst_perm df.values labs (1 - ft / (ft + fv + fte)) s hlen.symm
  by_cases hv : fv / (ft + fv + fte) = 0
  · simp only [if_pos hv] at hshape
    refine ⟨_, _, _, hshape, ?_, ?_⟩
    · simpa using hperm1
    · have := hperm1.length_eq
      rw [List.length_append] at this
      simpa using this
  · simp only [if_neg hv] at hshape
    have hperm2 := multilabel_fst_perm
      (multilabel_train_test_split df.values labs (1 - ft / (ft + fv + fte)) s).2.2.1
      (multilabel_train_test_split df.values labs (1 - ft / (ft + fv + fte)) s).2.2.2
      ((fte / (ft + fv + fte)) / (fv / (ft + fv + fte) + fte / (ft + fv + fte))) s
      (multilabel_temp_lengths _ _ _ _)
    refine ⟨_, _, _, hshape, ?_, ?_⟩
    · rw [List.append_assoc]
      exact ((hperm2.append_left _).trans hperm1)
    · have h2l := hperm2.length_eq
      have h1l := hperm1.length_eq
      rw [List.length_append] at h2l h1l
      simp only []
      omega

/-- Witness for C1 at a concrete four-row table with policy `event`. -/
theorem C1_split_is_partition_witness :
    ∃ tr va te : DataFrame,
      make_stratified_split ⟨["event"], [[0], [1], [0], [1]]⟩ "event"
        (1/2) (1/4) (1/4) 7 = .ok (tr, va, te) ∧
      (tr.values ++ va.values ++ te.values).Perm
        (⟨["event"], [[0], [1], [0], [1]]⟩ : DataFrame).values ∧
      tr.values.length + va.values.length + te.values.length =
        (⟨["event"], [[0], [1], [0], [1]]⟩ : DataFrame).values.length :=
  C1_split_is_partition ⟨["event"], [[0], [1], [0], [1]]⟩ "event"
    (1/2) (1/4) (1/4) 7 (Or.inl rfl) (by norm_num) (by norm_num) (by norm_num)
    (by norm_num)

/-- **C3 counterexample**: the claim quantifies over *all* fractions, but with
a negative fraction and the unrecognized policy `"bogus"` the call fails with
`invalidFractions` (the fraction `assert` runs first), not `invalidPolicy`. -/
theorem C3_counterexample :
    make_stratified_split ⟨["event"], [[0]]⟩ "bogus" (-1) 0 1 7 =
      .error .invalidFractions ∧
    make_stratified_split ⟨["event"], [[0]]⟩ "bogus" (-1) 0 1 7 ≠
      .error .invalidPolicy := by
  have h : make_stratified_split ⟨["event"], [[0]]⟩ "bogus" (-1) 0 1 7 =
      .error .invalidFractions := by
    unfold make_stratified_split
    rw [if_neg]
    intro hh
    exact absurd hh.1 (by norm_num)
  refine ⟨h, ?_⟩
  rw [h]
  simp

/-- **C3** (amended): for every table, seed, and *valid* fractions
(non-negative with nonzero sum), a stratify policy outside
`{event, time, both}` fails with `invalidPolicy` and produces no output
tables. -/
theorem C3_invalid_policy (df : DataFrame) (c : String)
    (ft fv fte : ℚ) (s : ℕ)
    (h0 : 0 ≤ ft) (h1 : 0 ≤ fv) (h2 : 0 ≤ fte) (hsum : ft + fv + fte ≠ 0)
    (hc1 : c ≠ "event") (hc2 : c ≠ "time") (hc3 : c ≠ "both") :
    make_stratified_split df c ft fv fte s = .error .invalidPolicy := by
  have hlab : buildStratifyLabels df c = .error .invalidPolicy := by
    unfold buildStratifyLabels
    rw [if_neg hc1, if_neg hc2, if_neg hc3]
  simp only [make_stratified_split, hlab]
  rw [if_pos ⟨h0, h1, h2⟩, if_neg hsum]

/-- Witness for the amended C3 with policy `"bogus"`. -/
theorem C3_invalid_policy_witness :
    make_stratified_split ⟨["event"], [[0]]⟩ "bogus" (1/2) 0 (1/2) 7 =
      .error .invalidPolicy :=
  C3_invalid_policy ⟨["event"], [[0]]⟩ "bogus" (1/2) 0 (1/2) 7
    (by norm_num) (by norm_num) (by norm_num) (by norm_num)
    (by decide) (by decide) (by decide)

/-- **C5**: `make_stratified_split` is deterministic: two calls with
identical table, policy, fractions and seed return identical output tables
(in this pure embedding the result is a function of exactly these
arguments; the only modelled randomness is the seeded shuffle). -/
theorem C5_deterministic (df df' : DataFrame) (c c' : String)
    (ft ft' fv fv' fte fte' : ℚ) (s s' : ℕ)
    (h1 : df = df') (h2 : c = c') (h3 : ft = ft') (h4 : fv = fv')
    (h5 : fte = fte') (h6 : s = s') :
    make_stratified_split df c ft fv fte s =
      make_stratified_split df' c' ft' fv' fte' s' := by
  subst h1; subst h2; subst h3; subst h4; subst h5; subst h6; rfl

/-- Witness for C5 at concrete arguments. -/
theorem C5_deterministic_witness :
    make_stratified_split ⟨["event"], [[0], [1]]⟩ "event" (1/2) 0 (1/2) 42 =
      make_stratified_split ⟨["event"], [[0], [1]]⟩ "event" (1/2) 0 (1/2) 42 :=
  C5_deterministic ⟨["event"], [[0], [1]]⟩ ⟨["event"], [[0], [1]]⟩ "event" "event"
    (1/2) (1/2) 0 0 (1/2) (1/2) 42 42 rfl rfl rfl rfl rfl rfl

/-- **C8**: a negative requested fraction fails with `invalidFractions`
immediately — before renormalization, label building or any splitting,
whatever the table, policy or seed. -/
theorem C8_negative_fraction (df : DataFrame) (c : String)
    (ft fv fte : ℚ) (s : ℕ)
    (h : ft < 0 ∨ fv < 0 ∨ fte < 0) :
    make_stratified_split df c ft fv fte s = .error .invalidFractions := by
  unfold make_stratified_split
  rw [if_neg]
  rintro ⟨h0, h1, h2⟩
  rcases h with h | h | h <;> linarith

/-- Witness for C8 with a negative train fraction. -/
theorem C8_negative_fraction_witness :
    make_stratified_split ⟨["event"], [[0]]⟩ "event" (-1) (1/2) (1/2) 7 =
      .error .invalidFractions :=
  C8_negative_fraction ⟨["event"], [[0]]⟩ "event" (-1) (1/2) (1/2) 7
    (Or.inl (by norm_num))

/-- **C10**: with all three fractions zero the non-negativity `assert`
passes (so no `invalidFractions`), and renormalization divides by the zero
sum: the call dies with the unguarded division-by-zero fault, for every
table, policy and seed. -/
theorem C10_zero_sum_division_by_zero (df : DataFrame) (c : String) (s : ℕ) :
    make_stratified_split df c 0 0 0 s = .error .divisionByZero ∧
    make_stratified_split df c 0 0 0 s ≠ .error .invalidFractions := by
  have h : make_stratified_split df c 0 0 0 s = .error .divisionByZero := by
    unfold make_stratified_split
    rw [if_pos ⟨le_refl 0, le_refl 0, le_refl 0⟩, if_pos (by norm_num)]
  refine ⟨h, ?_⟩
  rw [h]
  simp

/-- **C4**: when the requested valid fraction is 0 (and the other fractions
are valid), no second split is performed: the rest partition of the first
split becomes the test table directly, the valid table is empty, and
`len(test) = len(input) - len(train)`. -/
theorem C4_zero_valid_fraction (df : DataFrame) (c : String)
    (ft fte : ℚ) (s : ℕ) (labs : List (List ℚ))
    (hlab : buildStratifyLabels df c = .ok labs)
    (h0 : 0 ≤ ft) (h2 : 0 ≤ fte) (hsum : ft + 0 + fte ≠ 0) :
    make_stratified_split df c ft 0 fte s =
      (let first := multilabel_train_test_split df.values labs
        (1 - ft / (ft + 0 + fte)) s
       Except.ok (⟨df.columns, first.1⟩, ⟨df.columns, ([] : List (List ℚ))⟩,
         ⟨df.columns, first.2.2.1⟩)) ∧
    (multilabel_train_test_split df.values labs (1 - ft / (ft + 0 + fte)) s).2.2.1.length =
      df.values.length -
        (multilabel_train_test_split df.values labs (1 - ft / (ft + 0 + fte)) s).1.length := by
  have hshape := make_stratified_split_eq_ok df c ft 0 fte s labs h0 (le_refl 0) h2 hsum hlab
  have hv : (0 : ℚ) / (ft + 0 + fte) = 0 := zero_div _
  simp only [if_pos hv] at hshape
  have hlen := buildStratifyLabels_length df c labs hlab
  have hperm1 := multilabel_fst_perm df.values labs (1 - ft / (ft + 0 + fte)) s hlen.symm
  have hl := hperm1.length_eq
  rw [List.length_append] at hl
  exact ⟨hshape, by omega⟩

/-- Witness for C4 on a concrete table: valid fraction 0. -/
theorem C4_zero_valid_fraction_witness :
    make_stratified_split ⟨["event"], [[0], [1]]⟩ "event" (1/2) 0 (1/2) 3 =
      (let first := multilabel_train_test_split
        (⟨["event"], [[0], [1]]⟩ : DataFrame).values
        ((colValues ⟨["event"], [[0], [1]]⟩ "event").map (fun e => [e]))
        (1 - (1/2) / (1/2 + 0 + 1/2)) 3
       Except.ok (⟨["event"], first.1⟩, ⟨["event"], ([] : List (List ℚ))⟩,
         ⟨["event"], first.2.2.1⟩)) ∧
    (multilabel_train_test_split (⟨["event"], [[0], [1]]⟩ : DataFrame).values
      ((colValues ⟨["event"], [[0], [1]]⟩ "event").map (fun e => [e]))
      (1 - (1/2) / (1/2 + 0 + 1/2)) 3).2.2.1.length =
      (⟨["event"], [[0], [1]]⟩ : DataFrame).values.length -
        (multilabel_train_test_split (⟨["event"], [[0], [1]]⟩ : DataFrame).values
          ((colValues ⟨["event"], [[0], [1]]⟩ "event").map (fun e => [e]))
          (1 - (1/2) / (1/2 + 0 + 1/2)) 3).1.length :=
  C4_zero_valid_fraction ⟨["event"], [[0], [1]]⟩ "event" (1/2) (1/2) 3
    ((colValues ⟨["event"], [[0], [1]]⟩ "event").map (fun e => [e]))
    (buildStratifyLabels_event _) (by norm_num) (by norm_num) (by norm_num)

/-- **C6**: the three requested fractions are renormalized by their sum, so
the whole split is invariant under rescaling all of them by one positive
factor; in particular `(2, 1, 1)` gives the same three tables as
`(0.5, 0.25, 0.25)`. -/
theorem C6_rescale_invariant (df : DataFrame) (c : String)
    (ft fv fte k : ℚ) (s : ℕ) (hk : 0 < k) :
    make_stratified_split df c (k * ft) (k * fv) (k * fte) s =
      make_stratified_split df c ft fv fte s := by
  have hsum : k * ft + k * fv + k * fte = k * (ft + fv + fte) := by ring
  have h0 : (0 ≤ k * ft) ↔ (0 ≤ ft) := mul_nonneg_iff_of_pos_left hk
  have h1 : (0 ≤ k * fv) ↔ (0 ≤ fv) := mul_nonneg_iff_of_pos_left hk
  have h2 : (0 ≤ k * fte) ↔ (0 ≤ fte) := mul_nonneg_iff_of_pos_left hk
  have hz : (k * (ft + fv + fte) = 0) ↔ ((ft + fv + fte) = 0) := by
    simp [mul_eq_zero, ne_of_gt hk]
  have d1 : k * ft / (k * (ft + fv + fte)) = ft / (ft + fv + fte) :=
    mul_div_mul_left _ _ (ne_of_gt hk)
  have d2 : k * fv / (k * (ft + fv + fte)) = fv / (ft + fv + fte) :=
    mul_div_mul_left _ _ (ne_of_gt hk)
  have d3 : k * fte / (k * (ft + fv + fte)) = fte / (ft + fv + fte) :=
    mul_div_mul_left _ _ (ne_of_gt hk)
  simp only [make_stratified_split, hsum, h0, h1, h2, hz, d1, d2, d3]

/-- Witness for C6: fractions `(2, 1, 1)` versus `(0.5, 0.25, 0.25)`. -/
theorem C6_rescale_invariant_witness :
    make_stratified_split ⟨["event"], [[0], [1], [0], [1]]⟩ "event" 2 1 1 5 =
      make_stratified_split ⟨["event"], [[0], [1], [0], [1]]⟩ "event"
        (1/2) (1/4) (1/4) 5 := by
  have h := C6_rescale_invariant ⟨["event"], [[0], [1], [0], [1]]⟩ "event"
    (1/2) (1/4) (1/4) 4 5 (by norm_num)
  norm_num at h
  exact h

/-- **C7**: with a positive requested valid fraction, the rest partition of
the first split is split again with `test_size = frac_test /
(frac_valid + frac_test)` (the value obtained after renormalization), and the
labels handed to that second split are the label rows `y_temp` carried over
from the first split's rest partition, not labels recomputed from the rest
table. -/
theorem C7_second_split (df : DataFrame) (c : String)
    (ft fv fte : ℚ) (s : ℕ) (labs : List (List ℚ))
    (hlab : buildStratifyLabels df c = .ok labs)
    (h0 : 0 ≤ ft) (h1 : 0 < fv) (h2 : 0 ≤ fte) :
    make_stratified_split df c ft fv fte s =
      (let first := multilabel_train_test_split df.values labs
        (1 - ft / (ft + fv + fte)) s
       let second := multilabel_train_test_split first.2.2.1 first.2.2.2
         (fte / (fv + fte)) s
       Except.ok (⟨df.columns, first.1⟩, ⟨df.columns, second.1⟩,
         ⟨df.columns, second.2.2.1⟩)) := by
  have hsum : ft + fv + fte ≠ 0 := by positivity
  have hshape := make_stratified_split_eq_ok df c ft fv fte s labs h0 (le_of_lt h1) h2
    hsum hlab
  have hv : fv / (ft + fv + fte) ≠ 0 := div_ne_zero (ne_of_gt h1) hsum
  have hvt : fv + fte ≠ 0 := by positivity
  have hts : (fte / (ft + fv + fte)) /
      (fv / (ft + fv + fte) + fte / (ft + fv + fte)) = fte / (fv + fte) := by
    rw [div_add_div_same]
    rw [div_div_div_cancel_right₀]
    exact hsum
  rw [hshape]
  simp only [if_neg hv, hts]

/-- Witness for C7 with fractions `(1/2, 1/4, 1/4)`. -/
theorem C7_second_split_witness :
    make_stratified_split ⟨["event"], [[0], [1], [0], [1]]⟩ "event"
      (1/2) (1/4) (1/4) 9 =
      (let first := multilabel_train_test_split
        (⟨["event"], [[0], [1], [0], [1]]⟩ : DataFrame).values
        ((colValues ⟨["event"], [[0], [1], [0], [1]]⟩ "event").map (fun e => [e]))
        (1 - (1/2) / (1/2 + 1/4 + 1/4)) 9
       let second := multilabel_train_test_split first.2.2.1 first.2.2.2
         ((1/4) / (1/4 + 1/4)) 9
       Except.ok (⟨["event"], first.1⟩, ⟨["event"], second.1⟩,
         ⟨["event"], second.2.2.1⟩)) :=
  C7_second_split ⟨["event"], [[0], [1], [0], [1]]⟩ "event" (1/2) (1/4) (1/4) 9
    ((colValues ⟨["event"], [[0], [1], [0], [1]]⟩ "event").map (fun e => [e]))
    (buildStratifyLabels_event _) (by norm_num) (by norm_num) (by norm_num)

/-! ### The time-binning computation -/

/-- For a `≤`-sorted edge list containing an edge `≥ v`, the number of edges
strictly below `v` (right-inclusive digitization) equals the index of the
first edge `≥ v`. -/
lemma countP_lt_eq_findIdx_le (v : ℚ) :
    ∀ l : List ℚ, l.Pairwise (· ≤ ·) → (∃ x ∈ l, v ≤ x) →
      l.countP (fun b => decide (b < v)) = l.findIdx (fun b => decide (v ≤ b))
  | [], _, hex => by simp at hex
  | x :: xs, hs, hex => by
    rw [List.countP_cons, List.findIdx_cons]
    by_cases hvx : v ≤ x
    · have hx0 : ¬(x < v) := not_lt.mpr hvx
      have hall : xs.countP (fun b => decide (b < v)) = 0 := by
        rw [List.countP_eq_zero]
        intro y hy
        have hxy : x ≤ y := (List.pairwise_cons.mp hs).1 y hy
        simp only [decide_eq_true_eq]
        exact not_lt.mpr (le_trans hvx hxy)
      simp [hvx, hx0, hall]
    · have hx1 : x < v := not_le.mp hvx
      have hex' : ∃ y ∈ xs, v ≤ y := by
        rcases hex with ⟨y, hy, hvy⟩
        rcases List.mem_cons.mp hy with rfl | hy'
        · exact absurd hvy hvx
        · exact ⟨y, hy', hvy⟩
      have ih := countP_lt_eq_findIdx_le v xs (List.pairwise_cons.mp hs).2 hex'
      simp [hvx, hx1, ih]

/-- The 20 linspace edges are nondecreasing when `a ≤ b`. -/
lemma linspace20_pairwise (a b : ℚ) (hab : a ≤ b) :
    (linspace a b 20).Pairwise (· ≤ ·) := by
  unfold linspace
  refine List.Pairwise.map _ ?_ (List.pairwise_lt_range 20)
  intro i j hij
  have hij' : (i : ℚ) ≤ (j : ℚ) := by exact_mod_cast Nat.le_of_lt hij
  have hba : (0 : ℚ) ≤ b - a := by linarith
  have h19 : (0 : ℚ) < (20 : ℚ) - 1 := by norm_num
  have hnum : (b - a) * (i : ℚ) ≤ (b - a) * (j : ℚ) :=
    mul_le_mul_of_nonneg_left hij' hba
  have hdiv := (div_le_div_iff_of_pos_right h19).mpr hnum
  linarith

/-- The top linspace edge is the maximum `b` itself. -/
lemma linspace20_mem_top (a b : ℚ) : b ∈ linspace a b 20 := by
  unfold linspace
  refine List.mem_map.mpr ⟨19, List.mem_range.mpr (by norm_num : (19 : ℕ) < 20), ?_⟩
  push_cast
  field_simp
  ring

lemma foldl_min_le (xs : List ℚ) :
    ∀ a : ℚ, xs.foldl min a ≤ a ∧ ∀ v ∈ xs, xs.foldl min a ≤ v := by
  induction xs with
  | nil =>
    intro a
    exact ⟨le_refl a, by simp⟩
  | cons y ys ih =>
    intro a
    simp only [List.foldl_cons]
    constructor
    · exact le_trans (ih (min a y)).1 (min_le_left a y)
    · intro v hv
      rcases List.mem_cons.mp hv with rfl | hv'
      · exact le_trans (ih (min a v)).1 (min_le_right a v)
      · exact (ih (min a y)).2 v hv'

lemma le_foldl_max (xs : List ℚ) :
    ∀ a : ℚ, a ≤ xs.foldl max a ∧ ∀ v ∈ xs, v ≤ xs.foldl max a := by
  induction xs with
  | nil =>
    intro a
    exact ⟨le_refl a, by simp⟩
  | cons y ys ih =>
    intro a
    simp only [List.foldl_cons]
    constructor
    · exact le_trans (le_max_left a y) (ih (max a y)).1
    · intro v hv
      rcases List.mem_cons.mp hv with rfl | hv'
      · exact le_trans (le_max_right a v) (ih (max a v)).1
      · exact (ih (max a y)).2 v hv'

/-- `Series.min()` is a lower bound of the column. -/
lemma listMin_le {l : List ℚ} {v : ℚ} (hv : v ∈ l) : listMin l ≤ v := by
  cases l with
  | nil => simp at hv
  | cons x xs =>
    show xs.foldl min x ≤ v
    rcases List.mem_cons.mp hv with rfl | hv'
    · exact (foldl_min_le xs v).1
    · exact (foldl_min_le xs x).2 v hv'

/-- `Series.max()` is an upper bound of the column. -/
lemma le_listMax {l : List ℚ} {v : ℚ} (hv : v ∈ l) : v ≤ listMax l := by
  cases l with
  | nil => simp at hv
  | cons x xs =>
    show v ≤ xs.foldl max x
    rcases List.mem_cons.mp hv with rfl | hv'
    · exact (le_foldl_max xs v).1
    · exact (le_foldl_max xs x).2 v hv'

/-- The code's right-inclusive digitization against the 20 linspace edges is
the index of the smallest edge `≥ v`, for every `v ≤ b`. -/
lemma digitizeRight_eq_amendedBinIndex (a b v : ℚ) (hab : a ≤ b) (hvb : v ≤ b) :
    digitizeRight v (linspace a b 20) = amendedBinIndex a b v := by
  unfold digitizeRight amendedBinIndex
  exact countP_lt_eq_findIdx_le v (linspace a b 20) (linspace20_pairwise a b hab)
    ⟨b, linspace20_mem_top a b, hvb⟩

/-- The minimum itself falls into bin 0. -/
lemma digitizeRight_min (a b : ℚ) (hab : a ≤ b) :
    digitizeRight a (linspace a b 20) = 0 := by
  unfold digitizeRight
  rw [List.countP_eq_zero]
  intro x hx
  rcases List.mem_map.mp hx with ⟨k, _, rfl⟩
  simp only [decide_eq_true_eq]
  have hba : (0 : ℚ) ≤ b - a := by linarith
  have hk0 : (0 : ℚ) ≤ (k : ℚ) := Nat.cast_nonneg k
  have hnn : (0 : ℚ) ≤ (b - a) * (k : ℚ) / ((20 : ℚ) - 1) :=
    div_nonneg (mul_nonneg hba hk0) (by norm_num)
  intro hlt
  linarith

/-- **C2 counterexample**: on the time column `[0, 5, 20]` the code labels the
value 5 with bin 5 (edges `20k/19` from `np.linspace(0, 20, num=20)`), while
the claimed partition of [0, 20] into 20 equal-width bins (right edges
`i + 1`) puts 5 into bin 4 — so the claimed per-row label differs from the
code's on row 1 of this table. -/
theorem C2_counterexample :
    buildStratifyLabels ⟨["time"], [[0], [5], [20]]⟩ "time" =
      .ok [[(0 : ℚ)], [5], [19]] ∧
    (colValues ⟨["time"], [[0], [5], [20]]⟩ "time").map
      (fun v => [(claimedBinIndex20
        (listMin (colValues ⟨["time"], [[0], [5], [20]]⟩ "time"))
        (listMax (colValues ⟨["time"], [[0], [5], [20]]⟩ "time")) v : ℚ)]) =
      [[(0 : ℚ)], [4], [19]] ∧
    ([[(0 : ℚ)], [5], [19]] : List (List ℚ)) ≠ [[(0 : ℚ)], [4], [19]] := by
  refine ⟨?_, ?_, by norm_num⟩
  · rw [buildStratifyLabels_time]
    norm_num [colValues, timeBinLabels, digitizeRight, linspace, listMin, listMax,
      List.range_succ, List.countP_append, List.countP_cons]
  · norm_num [colValues, claimedBinIndex20, listMin, listMax,
      List.findIdx_cons, List.range_succ]

/-- **C2** (amended): under policy `time` the per-row label is the
right-inclusive digitization of the row's time value against the 20 evenly
spaced edges of `np.linspace(min(time), max(time), num=20)` — 19 equal-width
intervals, each value going to the index of the smallest edge `≥` it — with
values equal to the minimum falling into bin 0; this holds for every row of
every table whose time column is non-constant. -/
theorem C2_time_binning (df : DataFrame)
    (hnc : listMin (colValues df "time") < listMax (colValues df "time")) :
    buildStratifyLabels df "time" =
      .ok ((colValues df "time").map
        (fun v => [(amendedBinIndex (listMin (colValues df "time"))
          (listMax (colValues df "time")) v : ℚ)])) ∧
    amendedBinIndex (listMin (colValues df "time"))
      (listMax (colValues df "time")) (listMin (colValues df "time")) = 0 := by
  have hab : listMin (colValues df "time") ≤ listMax (colValues df "time") :=
    le_of_lt hnc
  constructor
  · rw [buildStratifyLabels_time]
    congr 1
    simp only [timeBinLabels, List.map_map]
    apply List.map_congr_left
    intro v hv
    simp only [Function.comp_apply]
    rw [digitizeRight_eq_amendedBinIndex _ _ _ hab (le_listMax hv)]
  · rw [← digitizeRight_eq_amendedBinIndex _ _ _ hab hab]
    exact digitizeRight_min _ _ hab

/-- Witness for the amended C2 on the table with time column `[0, 5, 20]`. -/
theorem C2_time_binning_witness :
    buildStratifyLabels ⟨["time"], [[0], [5], [20]]⟩ "time" =
      .ok ((colValues ⟨["time"], [[0], [5], [20]]⟩ "time").map
        (fun v => [(amendedBinIndex
          (listMin (colValues ⟨["time"], [[0], [5], [20]]⟩ "time"))
          (listMax (colValues ⟨["time"], [[0], [5], [20]]⟩ "time")) v : ℚ)])) ∧
    amendedBinIndex (listMin (colValues ⟨["time"], [[0], [5], [20]]⟩ "time"))
      (listMax (colValues ⟨["time"], [[0], [5], [20]]⟩ "time"))
      (listMin (colValues ⟨["time"], [[0], [5], [20]]⟩ "time")) = 0 :=
  C2_time_binning ⟨["time"], [[0], [5], [20]]⟩
    (by norm_num [colValues, listMin, listMax])

/-- **C9**: for the time column `[0, 5, 10, 15, 20]` under policy `time`
(bins spanning [0, 20]), the computed bin labels are `[0, 5, 10, 15, 19]`:
pairwise distinct and strictly increasing — in particular monotonically
non-decreasing — as the time value increases. -/
theorem C9_binning_distinct_monotone :
    timeBinLabels [(0 : ℚ), 5, 10, 15, 20] = [0, 5, 10, 15, 19] ∧
    List.Pairwise (· < ·) (timeBinLabels [(0 : ℚ), 5, 10, 15, 20]) := by
  have h : timeBinLabels [(0 : ℚ), 5, 10, 15, 20] = [0, 5, 10, 15, 19] := by
    norm_num [timeBinLabels, digitizeRight, linspace, listMin, listMax,
      List.range_succ, List.countP_append, List.countP_cons]
  exact ⟨h, by rw [h]; decide⟩
